import Mathlib

/-!
Verification of the varuna range-check gadget and the export utilities.

The definitions below are a shallow embedding of
`std/rangecheck/varuna/rangecheck_varuna.go` and
`std/utils/export_utils/export_utils.go`: machine integers become `Nat`
(with the 64-bit bound written out where the source consults it), Go slices
become lists built by the same append loops, panics and returned errors
become `Except`, and the external constraint-system builder is an explicit
environment of functions standing for its read interface.
-/

namespace Varuna

/-- A pending range-check request: a variable handle and its bit width
(`checkedVariable` in the source). -/
structure CheckedVariable where
  v : Nat
  bits : Nat
deriving DecidableEq, Repr

/-- One `(coefficientId, variableId)` pair of a linear expression
(`constraint.Term`, as the exporters read it). -/
structure Term where
  cid : Nat
  vid : Nat
deriving DecidableEq, Repr

/-- A linear expression as the builder hands it back: a sequence of terms. -/
abbrev LinearExpression := List Term

/-- The lookup artifact: table size `1 <<< baseLength` plus the list of
linear expressions that must be members of the table. -/
structure Lookup where
  NbTable : Nat
  A : List LinearExpression
deriving DecidableEq, Repr

/-- The collector state (`varunaChecker`): requests collected so far, the
closed flag, and the lookup built by finalization. -/
structure VarunaChecker where
  collected : List CheckedVariable
  closed : Bool
  lookups : Lookup
deriving DecidableEq, Repr

/-- Error outcomes of the gadget: Go panics and returned errors. -/
inductive GadgetError where
  | alreadyClosed
  | notClosed
  | unresolvable
  | arityMismatch
  | notUint64
  | badInputCount
deriving DecidableEq, Repr

/-- `decompSize`: the number of limbs, `ceil(varSize / limbSize)`. -/
def decompSize (varSize limbSize : Nat) : Nat :=
  (varSize + limbSize - 1) / limbSize

/-- `nbR1CSConstraints`: the cost model,
`(1 <<< baseLength) + totalLimbs + numRequests + 1`. -/
def nbR1CSConstraints (baseLength : Nat) (collected : List CheckedVariable) : Nat :=
  let nbDecomposed := collected.foldl (fun acc cv => acc + decompSize cv.bits baseLength) 0
  let eqs := collected.length
  (1 <<< baseLength) + nbDecomposed + eqs + 1

/-- The widths the optimizer scans: `j := 2; j < 18; j++`. -/
def widthCandidates : List Nat := (List.range 16).map (fun j => j + 2)

/-- `math.MaxInt64`, the initial minimum of the scan. -/
def maxInt64 : Nat := 2 ^ 63 - 1

/-- One iteration of the scan in `optimalWidth`: keep `(min, minVal)`,
update on a strictly smaller cost. -/
def widthScanStep (g : Nat → Nat) (st : Nat × Nat) (j : Nat) : Nat × Nat :=
  if g j < st.1 then (g j, j) else st

/-- `optimalWidth`: scan widths 2..17 and return the first width attaining
the minimal cost. -/
def optimalWidth (countFn : Nat → List CheckedVariable → Nat)
    (collected : List CheckedVariable) : Nat :=
  (widthCandidates.foldl (widthScanStep (fun j => countFn j collected)) (maxInt64, 0)).2

/-- `getOptimalBasewidth`: `optimalWidth` instantiated with the R1CS cost. -/
def getOptimalBasewidth (collected : List CheckedVariable) : Nat :=
  optimalWidth nbR1CSConstraints collected

/-- `Check`: panics (here: errs) when the collector is closed, otherwise
appends the request. -/
def Check (c : VarunaChecker) (vin : Nat) (bits : Nat) :
    Except GadgetError VarunaChecker :=
  if c.closed then .error .alreadyClosed
  else .ok { c with collected := c.collected ++ [{ v := vin, bits := bits }] }

/-- The builder's side of finalization: `NewHint` returning the limb
variables of one decomposition, and `ToCanonicalVariable` which may fail to
yield a linear expression. -/
structure FinalizeEnv where
  newHint : Nat → Nat → Nat → Nat → List Nat
  toCanonical : Nat → Option LinearExpression

/-- The resolve loop at the end of `handleVarunaRangeCheck`: canonicalize
every decomposed variable, stopping with an error at the first failure and
keeping the members appended so far. -/
def resolveAll (env : FinalizeEnv) :
    List Nat → List LinearExpression → List LinearExpression × Except GadgetError Unit
  | [], acc => (acc, .ok ())
  | vd :: rest, acc =>
    match env.toCanonical vd with
    | some l => resolveAll env rest (acc ++ [l])
    | none => (acc, .error .unresolvable)

/-- `handleVarunaRangeCheck`, the deferred finalize hook. Returns the new
collector state, the list of variables an equality constraint was emitted
for (one `AssertIsEqual` per collected request, in order), and the result.
The `defer` in the source sets `closed` on every path past the first
check, including the error path of the resolve loop. -/
def handleVarunaRangeCheck (env : FinalizeEnv) (c : VarunaChecker) :
    VarunaChecker × List Nat × Except GadgetError Unit :=
  if c.closed then (c, [], .ok ())
  else if c.collected.isEmpty then ({ c with closed := true }, [], .ok ())
  else
    let baseLength := getOptimalBasewidth c.collected
    let decomposed := c.collected.foldl
      (fun acc cv => acc ++ env.newHint (decompSize cv.bits baseLength) cv.bits baseLength cv.v) []
    let emitted := c.collected.map (fun cv => cv.v)
    let pr := resolveAll env decomposed []
    ({ c with closed := true, lookups := { NbTable := 1 <<< baseLength, A := pr.1 } },
      emitted, pr.2)

/-- The core of `GetLookupByBuilder` once the stored checker is found:
panic (here: err) with not-closed while open, otherwise hand out the
lookup. -/
def getLookup (c : VarunaChecker) : Except GadgetError Lookup :=
  if c.closed then .ok c.lookups else .error .notClosed

/-- The hint's inner loop: `nbLimbs` times take `tmp % base` and shift. -/
def decomposeLoop (base : Nat) : Nat → Nat → List Nat
  | _, 0 => []
  | tmp, n + 1 => tmp % base :: decomposeLoop base (tmp / base) n

/-- `DecomposeHint`: the out-of-circuit decomposition. Inputs are the bit
width, the limb width and the value; `nbOutputs` is the caller-requested
arity (`len(outputs)`). -/
def DecomposeHint (inputs : List Nat) (nbOutputs : Nat) :
    Except GadgetError (List Nat) :=
  match inputs with
  | [varSize, limbSize, val] =>
    if varSize < 2 ^ 64 ∧ limbSize < 2 ^ 64 then
      if nbOutputs = decompSize varSize limbSize then
        .ok (decomposeLoop (1 <<< limbSize) val nbOutputs)
      else .error .arityMismatch
    else .error .notUint64
  | _ => .error .badInputCount

/-- The recomposition the circuit enforces: `sum(limb_i * base ^ i)`. -/
def composeSum (base : Nat) (limbs : List Nat) : Nat :=
  (limbs.enum.map (fun p => p.2 * base ^ p.1)).sum

/-- Horner form of the recomposition, used to reason about the loop. -/
def composeF (base : Nat) (limbs : List Nat) : Nat :=
  limbs.foldr (fun l acc => l + base * acc) 0

/-- A collector as `NewVarunaRangechecker` creates it, after the given
requests were appended by `Check`. -/
def mkChecker (reqs : List CheckedVariable) : VarunaChecker :=
  { collected := reqs, closed := false, lookups := { NbTable := 0, A := [] } }

end Varuna

namespace ExportUtils

/-- A canonical field element as the exporters emit it (the value encoded
by the little-endian `[4]uint64` that `fr.Element.Bits` returns). -/
abbrev Element := Nat

/-- One exported constraint row; each side maps a variable id to a
canonical element (Go maps carry no order, so a side is a finite-support
function). -/
structure ConstraintRaw where
  A : Nat → Option Element
  B : Nat → Option Element
  C : Nat → Option Element

/-- The exported lookup artifact: the table rows and one row per member. -/
structure LookupRaw where
  Table : List (Nat × Nat × Nat)
  Constraints : List ConstraintRaw

/-- The constraint system's read interface as the exporters use it:
`GetCoefficient` resolving a coefficient id to the internal element, and
the `Bits` conversion of the field library to canonical form. -/
structure CoeffEnv where
  getCoefficient : Nat → Nat
  bits : Nat → Element

/-- An empty side of a row (`B` and `C` of every lookup row). -/
def emptySide : Nat → Option Element := fun _ => none

/-- The inner loop of `SerializeLookup`: populate the `A` side of one row,
`c.A[term.VID] = bits(GetCoefficient(term.CID))`, later terms winning. -/
def resolveSide (env : CoeffEnv) (lc : Varuna.LinearExpression) : Nat → Option Element :=
  lc.foldl (fun m t => Function.update m t.vid (some (env.bits (env.getCoefficient t.cid)))) emptySide

/-- `SerializeLookup` without the file write: build `NbTable` table rows
`(uint32(i), 0, 0)` by appending, then one row per member with only the
`A` side populated. -/
def serializeLookup (env : CoeffEnv) (lookup : Varuna.Lookup) : LookupRaw :=
  let table := (List.range lookup.NbTable).foldl (fun acc i => acc ++ [(i % 2 ^ 32, 0, 0)]) []
  let constraints := lookup.A.foldl
    (fun acc lc => acc ++ [ConstraintRaw.mk (resolveSide env lc) emptySide emptySide]) []
  { Table := table, Constraints := constraints }

/-- The exported witness artifact (`AssignmentRaw`): the variable values
plus the two hard-coded input sizes. -/
structure AssignmentRaw where
  Variables : List Element
  PrimaryInputSize : Nat
  AuxiliaryInputSize : Nat
deriving DecidableEq, Repr

/-- `SerializeAssignment` without the file write: append `v.Bits()` for
every entry of `solution.W[1:]` (the leading constant is skipped), with
`PrimaryInputSize` and `AuxiliaryInputSize` fixed to `0`. -/
def serializeAssignment (bits : Nat → Element) (solutionW : List Nat) : AssignmentRaw :=
  { Variables := (solutionW.drop 1).foldl (fun acc vw => acc ++ [bits vw]) []
    PrimaryInputSize := 0
    AuxiliaryInputSize := 0 }

/-- The outcome of the three file operations each serializer performs:
whether `os.Create`, `File.Write` and `File.Close` would succeed. -/
structure FsWorld where
  createOk : Bool
  writeOk : Bool
  closeOk : Bool
deriving DecidableEq, Repr

/-- The write errors a serializer can return: writing to the nil file that
a failed `os.Create` leaves behind, or a failing write. -/
inductive IoError where
  | invalidHandle
  | writeFailed
deriving DecidableEq, Repr

/-- The file-writing block of `SerializeR1CS`: the `os.Create` error is
discarded, a write to the nil handle or a failed write is returned, and
the `Close` result is discarded. -/
def serializeR1CSWrite (w : FsWorld) : Except IoError Unit :=
  if w.createOk = false then .error .invalidHandle
  else if w.writeOk = false then .error .writeFailed
  else .ok ()

/-- The file-writing block of `SerializeAssignment`: identical structure. -/
def serializeAssignmentWrite (w : FsWorld) : Except IoError Unit :=
  if w.createOk = false then .error .invalidHandle
  else if w.writeOk = false then .error .writeFailed
  else .ok ()

/-- The file-writing block of `SerializeLookup`: identical structure. -/
def serializeLookupWrite (w : FsWorld) : Except IoError Unit :=
  if w.createOk = false then .error .invalidHandle
  else if w.writeOk = false then .error .writeFailed
  else .ok ()

/-- Whether any of the three file operations failed in this run: the
claim's notion of an I/O failure occurring on the export path. -/
def ioFailureOccurs (w : FsWorld) : Bool :=
  !w.createOk || !w.writeOk || !w.closeOk

end ExportUtils

namespace Builder

/-- The slice of builder state `NewVarunaRangechecker` touches: the
key-value slot under `ctxCheckerKey` (holding the id of the stored
collector instance, when one exists), a supply of fresh instance ids, and
how many deferred finalize callbacks were registered. -/
structure BuilderState where
  stored : Option Nat
  nextId : Nat
  nbDefers : Nat
deriving DecidableEq, Repr

/-- `NewVarunaRangechecker`: return the stored collector when the slot is
occupied; otherwise create a fresh one, store it and register the
finalize callback with `Defer`. -/
def newVarunaRangechecker (s : BuilderState) : BuilderState × Nat :=
  match s.stored with
  | some id => (s, id)
  | none =>
    ({ stored := some s.nextId, nextId := s.nextId + 1, nbDefers := s.nbDefers + 1 },
      s.nextId)

/-- `n` further calls to `NewVarunaRangechecker`, keeping only the state. -/
def callCheckerTimes (n : Nat) (s : BuilderState) : BuilderState :=
  match n with
  | 0 => s
  | m + 1 => callCheckerTimes m (newVarunaRangechecker s).1

end Builder

/-! Concrete sample inputs used to instantiate the theorems below. -/

namespace Varuna

/-- The batch of three requests with bit widths 8, 8 and 16. -/
def sampleBatch : List CheckedVariable :=
  [{ v := 0, bits := 8 }, { v := 1, bits := 8 }, { v := 2, bits := 16 }]

/-- A builder environment whose hint calls return fresh limb variables and
whose canonicalization always succeeds. -/
def sampleEnv : FinalizeEnv :=
  { newHint := fun n _ _ _ => List.range n
    toCanonical := fun vd => some [{ cid := 0, vid := vd }] }

/-- A builder environment whose canonicalization never yields a linear
expression (`ToCanonicalVariable` returning an unhandled type). -/
def failEnv : FinalizeEnv :=
  { newHint := fun n _ _ _ => List.range n
    toCanonical := fun _ => none }

end Varuna

namespace ExportUtils

/-- A small coefficient environment. -/
def sampleCoeffEnv : CoeffEnv :=
  { getCoefficient := fun cid => cid + 10, bits := fun x => x * 3 }

/-- A small finalized lookup with two table rows and two members. -/
def sampleLookup : Varuna.Lookup :=
  { NbTable := 2
    A := [[{ cid := 0, vid := 1 }], [{ cid := 1, vid := 0 }, { cid := 2, vid := 0 }]] }

end ExportUtils

/-! Helper lemmas. -/

namespace Varuna

theorem foldl_append_eq_map {α β : Type} (g : α → β) (L : List α) (acc : List β) :
    L.foldl (fun a x => a ++ [g x]) acc = acc ++ L.map g := by
  induction L generalizing acc with
  | nil => simp
  | cons a L ih => simp [ih]

theorem mem_widthCandidates (j : Nat) : j ∈ widthCandidates ↔ 2 ≤ j ∧ j < 18 := by
  simp only [widthCandidates, List.mem_map, List.mem_range]
  constructor
  · rintro ⟨a, ha, rfl⟩
    omega
  · intro h
    exact ⟨j - 2, by omega, by omega⟩

theorem widthCandidates_increasing : widthCandidates.Pairwise (· < ·) := by decide

theorem scan_fst_le (g : Nat → Nat) (L : List Nat) :
    ∀ st : Nat × Nat, (L.foldl (widthScanStep g) st).1 ≤ st.1 := by
  induction L with
  | nil => intro st; exact le_refl _
  | cons a L ih =>
    intro st
    rw [List.foldl_cons]
    refine le_trans (ih _) ?_
    by_cases h : g a < st.1
    · simp only [widthScanStep, if_pos h]
      exact le_of_lt h
    · simp only [widthScanStep, if_neg h]
      exact le_refl _

theorem scan_fst_le_mem (g : Nat → Nat) (L : List Nat) :
    ∀ (st : Nat × Nat) (j : Nat), j ∈ L → (L.foldl (widthScanStep g) st).1 ≤ g j := by
  induction L with
  | nil => intro st j hj; cases hj
  | cons a L ih =>
    intro st j hj
    rw [List.foldl_cons]
    rcases List.mem_cons.mp hj with rfl | hjL
    · refine le_trans (scan_fst_le g L _) ?_
      by_cases h : g j < st.1
      · simp only [widthScanStep, if_pos h]
        exact le_refl _
      · simp only [widthScanStep, if_neg h]
        exact le_of_not_lt h
    · exact ih _ j hjL

theorem scan_cases (g : Nat → Nat) (L : List Nat) :
    ∀ st : Nat × Nat, L.foldl (widthScanStep g) st = st ∨
      ((L.foldl (widthScanStep g) st).2 ∈ L ∧
       (L.foldl (widthScanStep g) st).1 = g (L.foldl (widthScanStep g) st).2 ∧
       (L.foldl (widthScanStep g) st).1 < st.1) := by
  induction L with
  | nil => intro st; exact Or.inl rfl
  | cons a L ih =>
    intro st
    rw [List.foldl_cons]
    by_cases h : g a < st.1
    · have hstep : widthScanStep g st a = (g a, a) := by simp [widthScanStep, h]
      rw [hstep]
      rcases ih (g a, a) with heq | ⟨hmem, hval, hlt⟩
      · right
        rw [heq]
        exact ⟨List.mem_cons_self a L, rfl, h⟩
      · right
        exact ⟨List.mem_cons_of_mem a hmem, hval, lt_trans hlt h⟩
    · have hstep : widthScanStep g st a = st := by simp [widthScanStep, h]
      rw [hstep]
      rcases ih st with heq | ⟨hmem, hval, hlt⟩
      · exact Or.inl heq
      · exact Or.inr ⟨List.mem_cons_of_mem a hmem, hval, hlt⟩

theorem scan_first (g : Nat → Nat) :
    ∀ (L : List Nat), L.Pairwise (· < ·) →
      ∀ (st : Nat × Nat) (j : Nat), j ∈ L → g j < st.1 →
        g j = (L.foldl (widthScanStep g) st).1 →
        (L.foldl (widthScanStep g) st).2 ≤ j := by
  intro L
  induction L with
  | nil => intro _ st j hj; cases hj
  | cons a L ih =>
    intro hL st j hj hlt heq
    obtain ⟨hpair, hLp⟩ := List.pairwise_cons.mp hL
    rw [List.foldl_cons] at heq ⊢
    rcases List.mem_cons.mp hj with rfl | hjL
    · by_cases h : g j < st.1
      · have hstep : widthScanStep g st j = (g j, j) := by simp [widthScanStep, h]
        rw [hstep] at heq ⊢
        rcases scan_cases g L (g j, j) with hfix | ⟨_, _, hlt2⟩
        · rw [hfix]
        · have hlt3 : (L.foldl (widthScanStep g) (g j, j)).1 < g j := hlt2
          rw [← heq] at hlt3
          exact absurd hlt3 (lt_irrefl _)
      · exact absurd hlt h
    · by_cases h : g a < st.1
      · have hstep : widthScanStep g st a = (g a, a) := by simp [widthScanStep, h]
        rw [hstep] at heq ⊢
        by_cases h2 : g j < g a
        · exact ih hLp (g a, a) j hjL h2 heq
        · rcases scan_cases g L (g a, a) with hfix | ⟨_, _, hlt2⟩
          · rw [hfix]
            exact le_of_lt (hpair j hjL)
          · have hlt3 : (L.foldl (widthScanStep g) (g a, a)).1 < g a := hlt2
            rw [← heq] at hlt3
            exact absurd hlt3 h2
      · have hstep : widthScanStep g st a = st := by simp [widthScanStep, h]
        rw [hstep] at heq ⊢
        exact ih hLp st j hjL hlt heq

theorem composeF_nil (base : Nat) : composeF base [] = 0 := rfl

theorem composeF_cons (base x : Nat) (xs : List Nat) :
    composeF base (x :: xs) = x + base * composeF base xs := rfl

theorem composeF_decomposeLoop (base : Nat) (hb : 0 < base) :
    ∀ (n tmp : Nat), tmp < base ^ n → composeF base (decomposeLoop base tmp n) = tmp := by
  intro n
  induction n with
  | zero =>
    intro tmp h
    rw [pow_zero] at h
    have h0 : tmp = 0 := by omega
    subst h0
    rfl
  | succ n ih =>
    intro tmp h
    have hdiv : tmp / base < base ^ n := by
      rw [Nat.div_lt_iff_lt_mul hb]
      calc tmp < base ^ (n + 1) := h
        _ = base ^ n * base := by rw [pow_succ]
    show composeF base (tmp % base :: decomposeLoop base (tmp / base) n) = tmp
    rw [composeF_cons, ih (tmp / base) hdiv, Nat.mod_add_div]

theorem composeSum_eq_composeF (base : Nat) (limbs : List Nat) :
    composeSum base limbs = composeF base limbs := by
  have key : ∀ (l : List Nat) (s : Nat),
      ((List.enumFrom s l).map (fun p => p.2 * base ^ p.1)).sum = base ^ s * composeF base l := by
    intro l
    induction l with
    | nil => intro s; simp [composeF_nil]
    | cons x xs ih =>
      intro s
      rw [List.enumFrom_cons, List.map_cons, List.sum_cons, ih (s + 1), composeF_cons,
        pow_succ]
      ring
  have h0 := key limbs 0
  rw [pow_zero, one_mul] at h0
  exact h0

theorem le_mul_decompSize (b l : Nat) (hb : 1 ≤ b) (hl : 1 ≤ l) :
    b ≤ l * decompSize b l := by
  unfold decompSize
  have h1 := Nat.div_add_mod (b + l - 1) l
  have h2 : (b + l - 1) % l < l := Nat.mod_lt _ (by omega)
  omega

theorem handle_closed (env : FinalizeEnv) (c : VarunaChecker) (h : c.closed = true) :
    handleVarunaRangeCheck env c = (c, [], .ok ()) := by
  simp [handleVarunaRangeCheck, h]

theorem handle_closes (env : FinalizeEnv) (c : VarunaChecker) :
    (handleVarunaRangeCheck env c).1.closed = true := by
  by_cases h : c.closed
  · simp [handleVarunaRangeCheck, h]
  · by_cases he : c.collected.isEmpty
    · simp [handleVarunaRangeCheck, h, he]
    · simp [handleVarunaRangeCheck, h, he]

end Varuna

namespace ExportUtils

theorem resolveSide_eq_find (env : CoeffEnv) (lc : Varuna.LinearExpression) (vid : Nat) :
    resolveSide env lc vid =
      (lc.reverse.find? (fun t => t.vid == vid)).map
        (fun t => env.bits (env.getCoefficient t.cid)) := by
  have key : ∀ (l : Varuna.LinearExpression) (m0 : Nat → Option Element),
      (l.foldl (fun (m : Nat → Option Element) (t : Varuna.Term) =>
          Function.update m t.vid (some (env.bits (env.getCoefficient t.cid)))) m0) vid
        = (l.reverse.find? (fun t => t.vid == vid)).elim (m0 vid)
            (fun t => some (env.bits (env.getCoefficient t.cid))) := by
    intro l
    induction l with
    | nil => intro m0; simp
    | cons t ts ih =>
      intro m0
      rw [List.foldl_cons, ih, List.reverse_cons, List.find?_append]
      cases hf : ts.reverse.find? (fun u => u.vid == vid) with
      | some u => simp [hf]
      | none =>
        by_cases hv : t.vid = vid
        · simp [hf, hv, Function.update_apply]
        · have hb : (t.vid == vid) = false := by simp [hv]
          simp [hf, hb, Function.update_apply, Ne.symm hv]
  have h0 := key lc emptySide
  rw [resolveSide, h0]
  cases lc.reverse.find? (fun t => t.vid == vid) with
  | none => rfl
  | some t => rfl

end ExportUtils

/-! The claims. -/

namespace Varuna

/-- C5: `optimalWidth` instantiated with the R1CS cost model is
deterministic, returns a width in [2,17], no width in [2,17] has a cost
strictly below the cost of the returned width, and ties go to the smaller
width met first in the ascending scan. The two bounds confine the claim to
the regime where Go's `int` arithmetic agrees with the exact model: every
request's bit width keeps `varSize + limbSize - 1` within int64 for every
scanned limb width (`bits + 16 < 2 ^ 63`, so `decompSize` never wraps),
and every scanned cost stays below `math.MaxInt64` (the scan's initial
minimum), so the limb sums, the cost and the comparisons never overflow. -/
theorem optimalWidth_deterministic_minimal (collected : List CheckedVariable)
    (hbits : ∀ cv ∈ collected, cv.bits + 16 < 2 ^ 63)
    (hbound : ∀ j, j < 18 → 2 ≤ j → nbR1CSConstraints j collected < maxInt64) :
    getOptimalBasewidth collected = getOptimalBasewidth collected ∧
    2 ≤ getOptimalBasewidth collected ∧ getOptimalBasewidth collected ≤ 17 ∧
    (∀ j, j < 18 → 2 ≤ j →
      nbR1CSConstraints (getOptimalBasewidth collected) collected ≤
        nbR1CSConstraints j collected) ∧
    (∀ j, j < 18 → 2 ≤ j →
      nbR1CSConstraints j collected =
        nbR1CSConstraints (getOptimalBasewidth collected) collected →
      getOptimalBasewidth collected ≤ j) := by
  have hfold : getOptimalBasewidth collected =
      (widthCandidates.foldl
        (widthScanStep (fun j => nbR1CSConstraints j collected)) (maxInt64, 0)).2 := rfl
  have h2mem : (2 : Nat) ∈ widthCandidates := by decide
  have hinit : nbR1CSConstraints 2 collected < maxInt64 := hbound 2 (by omega) (by omega)
  rcases scan_cases (fun j => nbR1CSConstraints j collected) widthCandidates (maxInt64, 0)
    with hfix | ⟨hmem, hval, _⟩
  · exfalso
    have hle := scan_fst_le_mem (fun j => nbR1CSConstraints j collected)
      widthCandidates (maxInt64, 0) 2 h2mem
    rw [hfix] at hle
    exact absurd (lt_of_le_of_lt hle hinit) (lt_irrefl _)
  · have hw := (mem_widthCandidates _).mp hmem
    refine ⟨rfl, ?_, ?_, ?_, ?_⟩
    · rw [hfold]; exact hw.1
    · rw [hfold]; omega
    · intro j hj18 hj2
      have hjmem : j ∈ widthCandidates := (mem_widthCandidates j).mpr ⟨hj2, hj18⟩
      have hle := scan_fst_le_mem (fun j => nbR1CSConstraints j collected)
        widthCandidates (maxInt64, 0) j hjmem
      rw [hfold]
      exact le_trans (le_of_eq hval.symm) hle
    · intro j hj18 hj2 heqc
      have hjmem : j ∈ widthCandidates := (mem_widthCandidates j).mpr ⟨hj2, hj18⟩
      have hjlt : nbR1CSConstraints j collected < maxInt64 := hbound j hj18 hj2
      rw [hfold] at heqc ⊢
      refine scan_first (fun j => nbR1CSConstraints j collected) widthCandidates
        widthCandidates_increasing (maxInt64, 0) j hjmem hjlt ?_
      show nbR1CSConstraints j collected =
        (widthCandidates.foldl
          (widthScanStep (fun j => nbR1CSConstraints j collected)) (maxInt64, 0)).1
      exact heqc.trans hval.symm

/-- Witness for C5 at the batch with bit widths 8, 8 and 16. -/
theorem optimalWidth_minimal_witness :
    getOptimalBasewidth sampleBatch = getOptimalBasewidth sampleBatch ∧
    2 ≤ getOptimalBasewidth sampleBatch ∧ getOptimalBasewidth sampleBatch ≤ 17 ∧
    (∀ j, j < 18 → 2 ≤ j →
      nbR1CSConstraints (getOptimalBasewidth sampleBatch) sampleBatch ≤
        nbR1CSConstraints j sampleBatch) ∧
    (∀ j, j < 18 → 2 ≤ j →
      nbR1CSConstraints j sampleBatch =
        nbR1CSConstraints (getOptimalBasewidth sampleBatch) sampleBatch →
      getOptimalBasewidth sampleBatch ≤ j) :=
  optimalWidth_deterministic_minimal sampleBatch (by decide) (by decide)

end Varuna

namespace Varuna

/-- C6: for every bit width in [1,253], limb width in [2,17] and value
below `2 ^ bitWidth`, `DecomposeHint` called with output arity
`ceil(bitWidth / limbWidth)` succeeds, and the least-significant-first
recomposition `sum(limb_i * (2 ^ limbWidth) ^ i)` of its outputs equals
the value exactly. -/
theorem decomposeHint_roundtrip (bitWidth limbWidth val : Nat)
    (h1 : 1 ≤ bitWidth) (h2 : bitWidth ≤ 253) (h3 : 2 ≤ limbWidth) (h4 : limbWidth ≤ 17)
    (h5 : val < 2 ^ bitWidth) :
    ∃ limbs, DecomposeHint [bitWidth, limbWidth, val] (decompSize bitWidth limbWidth) =
        .ok limbs ∧
      composeSum (1 <<< limbWidth) limbs = val := by
  have hbase : (1 <<< limbWidth) = 2 ^ limbWidth := by
    rw [Nat.shiftLeft_eq, one_mul]
  have hsz1 : bitWidth < 2 ^ 64 := by
    have : (253 : Nat) < 2 ^ 64 := by norm_num
    omega
  have hsz2 : limbWidth < 2 ^ 64 := by
    have : (17 : Nat) < 2 ^ 64 := by norm_num
    omega
  refine ⟨decomposeLoop (1 <<< limbWidth) val (decompSize bitWidth limbWidth), ?_, ?_⟩
  · show (if bitWidth < 2 ^ 64 ∧ limbWidth < 2 ^ 64 then
        if decompSize bitWidth limbWidth = decompSize bitWidth limbWidth then
          Except.ok (decomposeLoop (1 <<< limbWidth) val (decompSize bitWidth limbWidth))
        else Except.error GadgetError.arityMismatch
      else Except.error GadgetError.notUint64) =
      Except.ok (decomposeLoop (1 <<< limbWidth) val (decompSize bitWidth limbWidth))
    rw [if_pos ⟨hsz1, hsz2⟩, if_pos rfl]
  · rw [composeSum_eq_composeF, hbase]
    apply composeF_decomposeLoop (2 ^ limbWidth) (Nat.pos_pow_of_pos limbWidth (by omega))
    have hceil : bitWidth ≤ limbWidth * decompSize bitWidth limbWidth :=
      le_mul_decompSize bitWidth limbWidth h1 (by omega)
    calc val < 2 ^ bitWidth := h5
      _ ≤ 2 ^ (limbWidth * decompSize bitWidth limbWidth) :=
        Nat.pow_le_pow_right (by omega) hceil
      _ = (2 ^ limbWidth) ^ decompSize bitWidth limbWidth := pow_mul 2 _ _

/-- Witness for C6 at bit width 5, limb width 2 and value 21. -/
theorem decomposeHint_roundtrip_witness :
    ∃ limbs, DecomposeHint [5, 2, 21] (decompSize 5 2) = .ok limbs ∧
      composeSum (1 <<< 2) limbs = 21 :=
  decomposeHint_roundtrip 5 2 21 (by decide) (by decide) (by decide) (by decide) (by decide)

end Varuna

namespace Varuna

/-- C7: finalization is idempotent — on a closed collector the finalize
hook is a successful no-op, after any finalize run the collector is
closed, running it again returns the same state (so the stored Lookup is
unchanged by value), and `Check` on a closed collector fails with the
already-closed error. -/
theorem finalize_idempotent_check_closed (env : FinalizeEnv) (c : VarunaChecker)
    (vin bits : Nat) :
    (c.closed = true → handleVarunaRangeCheck env c = (c, [], .ok ())) ∧
    (handleVarunaRangeCheck env c).1.closed = true ∧
    handleVarunaRangeCheck env (handleVarunaRangeCheck env c).1 =
      ((handleVarunaRangeCheck env c).1, [], .ok ()) ∧
    (c.closed = true → Check c vin bits = .error .alreadyClosed) := by
  refine ⟨fun h => handle_closed env c h, handle_closes env c,
    handle_closed env _ (handle_closes env c), fun h => ?_⟩
  simp [Check, h]

/-- C8: finalizing an open collector with an empty batch transitions it to
closed, keeps the zero-value Lookup (table size 0, no members), emits no
equality constraints and returns successfully (no panic path is taken). -/
theorem finalize_empty_batch (env : FinalizeEnv) (c : VarunaChecker)
    (h1 : c.closed = false) (h2 : c.collected = [])
    (h3 : c.lookups = { NbTable := 0, A := [] }) :
    handleVarunaRangeCheck env c = ({ c with closed := true }, [], .ok ()) ∧
    (handleVarunaRangeCheck env c).1.closed = true ∧
    (handleVarunaRangeCheck env c).1.lookups.NbTable = 0 ∧
    (handleVarunaRangeCheck env c).1.lookups.A = [] ∧
    (handleVarunaRangeCheck env c).2.1 = [] ∧
    (handleVarunaRangeCheck env c).2.2 = .ok () := by
  have hemp : c.collected.isEmpty = true := by rw [h2]; rfl
  have hh : handleVarunaRangeCheck env c = ({ c with closed := true }, [], .ok ()) := by
    simp [handleVarunaRangeCheck, h1, hemp]
  refine ⟨hh, ?_, ?_, ?_, ?_, ?_⟩ <;> rw [hh] <;> simp [h3]

/-- Witness for C8 at the freshly created collector. -/
theorem finalize_empty_batch_witness :
    handleVarunaRangeCheck sampleEnv (mkChecker []) =
      ({ mkChecker [] with closed := true }, [], .ok ()) ∧
    (handleVarunaRangeCheck sampleEnv (mkChecker [])).1.closed = true ∧
    (handleVarunaRangeCheck sampleEnv (mkChecker [])).1.lookups.NbTable = 0 ∧
    (handleVarunaRangeCheck sampleEnv (mkChecker [])).1.lookups.A = [] ∧
    (handleVarunaRangeCheck sampleEnv (mkChecker [])).2.1 = [] ∧
    (handleVarunaRangeCheck sampleEnv (mkChecker [])).2.2 = .ok () :=
  finalize_empty_batch sampleEnv (mkChecker []) rfl rfl rfl

/-- C3 (amended): `GetLookup` succeeds and returns the stored Lookup
exactly when the collector is closed, and fails with the not-closed error
exactly when it is still open. (The further claim that a successful
`GetLookup` implies a fully successful finalization is refuted by
`getLookup_after_failed_finalize`.) -/
theorem getLookup_iff_closed (c : VarunaChecker) :
    (c.closed = true → getLookup c = .ok c.lookups) ∧
    (c.closed = false → getLookup c = .error .notClosed) := by
  constructor <;> intro h <;> simp [getLookup, h]

/-- C3 counterexample: when canonicalization fails mid-finalization the
hook returns an error, yet the deferred close still ran, so `GetLookup`
afterwards succeeds and hands out a partially built Lookup (table size
already set to 4, member list cut short at 0 of 4 limbs). -/
theorem getLookup_after_failed_finalize :
    (handleVarunaRangeCheck failEnv (mkChecker [{ v := 0, bits := 8 }])).2.2 =
      .error .unresolvable ∧
    getLookup (handleVarunaRangeCheck failEnv (mkChecker [{ v := 0, bits := 8 }])).1 =
      .ok { NbTable := 4, A := [] } :=
  ⟨rfl, rfl⟩

/-- C1 counterexample: on the batch with bit widths 8, 8 and 16 the
optimizer does not select width 4 (and the finalized Lookup does not have
8 members and table size 16): width 2 has cost 24, strictly below the 28
of width 4. -/
theorem sampleBatch_not_width_four :
    ¬(getOptimalBasewidth sampleBatch = 4 ∧
      (handleVarunaRangeCheck sampleEnv (mkChecker sampleBatch)).1.lookups.A.length = 8 ∧
      (handleVarunaRangeCheck sampleEnv (mkChecker sampleBatch)).1.lookups.NbTable = 16) := by
  decide

/-- C1 (amended): for the batch with bit widths 8, 8 and 16 the optimizer
scans widths 2..17 minimizing the cost model and selects limb width 2
(cost 24, minimal over the scanned range), and the Lookup produced by
finalization contains exactly 4+4+8 = 16 members and has table size 4. -/
theorem sampleBatch_finalization :
    getOptimalBasewidth sampleBatch = 2 ∧
    (∀ j, j < 18 → 2 ≤ j →
      nbR1CSConstraints 2 sampleBatch ≤ nbR1CSConstraints j sampleBatch) ∧
    (handleVarunaRangeCheck sampleEnv (mkChecker sampleBatch)).1.lookups.A.length = 16 ∧
    (handleVarunaRangeCheck sampleEnv (mkChecker sampleBatch)).1.lookups.NbTable = 4 := by
  decide

end Varuna

namespace ExportUtils

/-- C2 counterexample: for the full witness [1, 5, 7] on a system whose
builder reports 2 public variables, the claim fails — the exported
`PrimaryInputSize` is the hard-coded 0, not the builder's count. -/
theorem serializeAssignment_ignores_public_count :
    ¬((serializeAssignment (fun vw => vw) [1, 5, 7]).Variables.length = 2 ∧
      (serializeAssignment (fun vw => vw) [1, 5, 7]).PrimaryInputSize = 2) := by
  decide

/-- C2 (amended): for every nonempty full witness the exported artifact
contains exactly `len(fullWitness) - 1` elements (the constant entry at
index 0 is omitted), but both exported input sizes are hard-coded to 0 —
`SerializeAssignment` never consults the builder's public variable count. -/
theorem serializeAssignment_shape (bits : Nat → Element) (solutionW : List Nat)
    (h : 1 ≤ solutionW.length) :
    (serializeAssignment bits solutionW).Variables.length = solutionW.length - 1 ∧
    (serializeAssignment bits solutionW).PrimaryInputSize = 0 ∧
    (serializeAssignment bits solutionW).AuxiliaryInputSize = 0 := by
  refine ⟨?_, rfl, rfl⟩
  show ((solutionW.drop 1).foldl (fun acc vw => acc ++ [bits vw]) []).length
    = solutionW.length - 1
  rw [Varuna.foldl_append_eq_map]
  simp

/-- Witness for C2's amended statement at the full witness [1, 5, 7]. -/
theorem serializeAssignment_shape_witness :
    (serializeAssignment (fun vw => vw) [1, 5, 7]).Variables.length = [1, 5, 7].length - 1 ∧
    (serializeAssignment (fun vw => vw) [1, 5, 7]).PrimaryInputSize = 0 ∧
    (serializeAssignment (fun vw => vw) [1, 5, 7]).AuxiliaryInputSize = 0 :=
  serializeAssignment_shape (fun vw => vw) [1, 5, 7] (by decide)

/-- C4 counterexample: in a run where creation and the write succeed but
the final `Close` fails, an I/O failure occurred on the export path, yet
all three serializers return success — the `Close` error is discarded. -/
theorem close_failure_swallowed :
    ioFailureOccurs { createOk := true, writeOk := true, closeOk := false } = true ∧
    serializeR1CSWrite { createOk := true, writeOk := true, closeOk := false } = .ok () ∧
    serializeAssignmentWrite { createOk := true, writeOk := true, closeOk := false } = .ok () ∧
    serializeLookupWrite { createOk := true, writeOk := true, closeOk := false } = .ok () :=
  ⟨rfl, rfl, rfl, rfl⟩

/-- C4 (amended): every creation or write failure makes all three export
operations return an error (a failed `os.Create` surfaces indirectly, as
the write error on the nil file handle, its own error being discarded);
when creation and write succeed the serializers return success regardless
of the `Close` outcome, so a `Close` failure alone is silently ignored. -/
theorem createWrite_failures_surface (w : FsWorld) :
    (w.createOk = false ∨ w.writeOk = false →
      serializeR1CSWrite w ≠ .ok () ∧
      serializeAssignmentWrite w ≠ .ok () ∧
      serializeLookupWrite w ≠ .ok ()) ∧
    (w.createOk = true → w.writeOk = true →
      serializeR1CSWrite w = .ok () ∧
      serializeAssignmentWrite w = .ok () ∧
      serializeLookupWrite w = .ok ()) := by
  rcases w with ⟨co, wo, cl⟩
  cases co <;> cases wo <;>
    simp [serializeR1CSWrite, serializeAssignmentWrite, serializeLookupWrite]

/-- C9: for every finalized lookup (table size within `uint32` range, as
`1 <<< baseLength` always is), the export emits exactly `tableSize` table
rows `(0,0,0) .. (tableSize-1,0,0)` in increasing row order, followed by
exactly one constraint row per member in member order with only the `A`
side populated and `B`, `C` empty; each `A` side maps a variable id to the
canonical coefficient resolved through the system's coefficient table,
the last term of the member winning on a repeated id. -/
theorem serializeLookup_shape (env : CoeffEnv) (lookup : Varuna.Lookup)
    (h : lookup.NbTable ≤ 2 ^ 32) :
    (serializeLookup env lookup).Table =
      (List.range lookup.NbTable).map (fun i => (i, 0, 0)) ∧
    (serializeLookup env lookup).Constraints =
      lookup.A.map (fun lc => ConstraintRaw.mk (resolveSide env lc) emptySide emptySide) ∧
    ∀ lc ∈ lookup.A, ∀ vid,
      resolveSide env lc vid =
        (lc.reverse.find? (fun t => t.vid == vid)).map
          (fun t => env.bits (env.getCoefficient t.cid)) := by
  refine ⟨?_, ?_, fun lc _ vid => resolveSide_eq_find env lc vid⟩
  · show (List.range lookup.NbTable).foldl (fun acc i => acc ++ [(i % 2 ^ 32, 0, 0)]) []
      = (List.range lookup.NbTable).map (fun i => (i, 0, 0))
    rw [Varuna.foldl_append_eq_map, List.nil_append]
    apply List.map_congr_left
    intro i hi
    have : i < 2 ^ 32 := lt_of_lt_of_le (List.mem_range.mp hi) h
    rw [Nat.mod_eq_of_lt this]
  · show lookup.A.foldl
        (fun acc lc => acc ++ [ConstraintRaw.mk (resolveSide env lc) emptySide emptySide]) []
      = lookup.A.map (fun lc => ConstraintRaw.mk (resolveSide env lc) emptySide emptySide)
    rw [Varuna.foldl_append_eq_map, List.nil_append]

/-- Witness for C9 at a two-row, two-member lookup. -/
theorem serializeLookup_shape_witness :
    (serializeLookup sampleCoeffEnv sampleLookup).Table =
      (List.range sampleLookup.NbTable).map (fun i => (i, 0, 0)) ∧
    (serializeLookup sampleCoeffEnv sampleLookup).Constraints =
      sampleLookup.A.map (fun lc =>
        ConstraintRaw.mk (resolveSide sampleCoeffEnv lc) emptySide emptySide) ∧
    ∀ lc ∈ sampleLookup.A, ∀ vid,
      resolveSide sampleCoeffEnv lc vid =
        (lc.reverse.find? (fun t => t.vid == vid)).map
          (fun t => sampleCoeffEnv.bits (sampleCoeffEnv.getCoefficient t.cid)) :=
  serializeLookup_shape sampleCoeffEnv sampleLookup (by decide)

end ExportUtils

namespace Builder

/-- C10: with the key-value slot initially empty, the first
`NewVarunaRangechecker` call stores a fresh collector and registers the
deferred finalize callback; after any number of further calls the builder
state is unchanged and the next call returns the identical stored
collector, with the defer count still exactly one above the initial
value. -/
theorem newChecker_single_instance (s : BuilderState) (h : s.stored = none) (n : Nat) :
    newVarunaRangechecker (callCheckerTimes n (newVarunaRangechecker s).1) =
      ((newVarunaRangechecker s).1, (newVarunaRangechecker s).2) ∧
    (callCheckerTimes n (newVarunaRangechecker s).1).nbDefers = s.nbDefers + 1 := by
  have hs1 : (newVarunaRangechecker s).1 =
      { stored := some s.nextId, nextId := s.nextId + 1, nbDefers := s.nbDefers + 1 } := by
    simp [newVarunaRangechecker, h]
  have h2 : (newVarunaRangechecker s).2 = s.nextId := by
    simp [newVarunaRangechecker, h]
  have hfix : newVarunaRangechecker (newVarunaRangechecker s).1 =
      ((newVarunaRangechecker s).1, s.nextId) := by
    rw [hs1]
    rfl
  have hcall : ∀ m, callCheckerTimes m (newVarunaRangechecker s).1 =
      (newVarunaRangechecker s).1 := by
    intro m
    induction m with
    | zero => rfl
    | succ m ih =>
      show callCheckerTimes m (newVarunaRangechecker (newVarunaRangechecker s).1).1 =
        (newVarunaRangechecker s).1
      rw [hfix]
      exact ih
  constructor
  · rw [hcall n, hfix, h2]
  · rw [hcall n, hs1]

/-- Witness for C10 from the empty builder state, three further calls. -/
theorem newChecker_single_instance_witness :
    newVarunaRangechecker (callCheckerTimes 3
        (newVarunaRangechecker { stored := none, nextId := 0, nbDefers := 0 }).1) =
      ((newVarunaRangechecker { stored := none, nextId := 0, nbDefers := 0 }).1,
       (newVarunaRangechecker { stored := none, nextId := 0, nbDefers := 0 }).2) ∧
    (callCheckerTimes 3
        (newVarunaRangechecker { stored := none, nextId := 0, nbDefers := 0 }).1).nbDefers =
      0 + 1 :=
  newChecker_single_instance { stored := none, nextId := 0, nbDefers := 0 } rfl 3

end Builder
